import Mathlib

/-!
Verification of the poap-test browser-automation scripts.

The repository consists of five near-duplicate Playwright driver scripts
(poap-form-test.js and four unnamed variants).  This file gives a shallow
embedding of the logic those scripts implement themselves — the
selector-fallback loops, the outcome classification, the per-scenario and
per-device result recording, the video-file renaming, and the results-JSON
serialization — and proves or refutes the specified properties about them.

Browser interaction itself (visibility of an element, whether a click
navigates, whether a step throws) is external input to the scripts; it is
modelled here as explicit observation data (booleans / candidate states /
an Except-valued step runner) threaded through the embedded control flow,
which is translated from the source line by line.
-/

/-! ## Candidate-fallback loops (resilient interactor)

The scripts repeat the same try/catch ladder: iterate an ordered list of
selectors, poll each for visibility, and act on the first visible one.
Two shapes occur in the source:

* the startClicked / inputFilled / submit loops (unnamed/part_000 lines
  734-748, 765-779, 799-812 and the benefit loop at 347-365): on the first
  visible candidate the action is performed and the loop breaks
  unconditionally; an exception from the candidate is swallowed and the
  loop continues;

* the collectibleSelectors loop (unnamed/part_000 lines 289-328): its try
  block wraps the collectible click, the URL check and — when the URL
  changed — the scrolling and the go-back interaction (the back-arrow
  click at line 314 or the forced Collection click at line 317), and only
  then breaks (line 322).  The loop therefore continues to the next
  selector when the click did not navigate, when the click threw, and
  also when the click navigated but the subsequent go-back click threw
  (the catch at lines 324-326 swallows it); in the last case the clicked
  flag was already set at line 302 and stays set.  The scroll helpers
  called in between catch their own errors (lines 36-113) and cannot
  throw here.
-/

/-- What the script observes for one candidate locator: the candidate is
visible (so the action runs on it), it is not visible within its timeout,
or probing/acting on it throws (the catch swallows the exception and the
loop continues). -/
inductive CandObs where
  | visible
  | hidden
  | throws
deriving DecidableEq, Repr

/-- The break-after-action fallback loop (startClicked and friends),
indexed from i.  Returns the success flag the script keeps and the list of
candidate indices the action was performed on. -/
def resolveFrom : Nat → List CandObs → Bool × List Nat
  | _, [] => (false, [])
  | i, c :: cs =>
    match c with
    | CandObs.visible => (true, [i])
    | _ => resolveFrom (i + 1) cs

/-- The fallback resolution the scripts reimplement per call site: act on
the first visible candidate, report succeeded or not. -/
def resolveAndAct (cs : List CandObs) : Bool × List Nat :=
  resolveFrom 0 cs

/-- Observation data for one candidate of the collectibleSelectors loop:
visibility, whether the collectible click itself throws (caught, loop
continues, no click completed), whether after a successful click the page
URL differs from the collection URL, and — when it does — whether the
go-back interaction that follows (back-arrow click or forced Collection
click, still inside the same try) throws. -/
structure CollCand where
  visible : Bool
  clickFails : Bool
  navigates : Bool
  goBackFails : Bool
deriving DecidableEq, Repr

/-- The collectibleSelectors loop (unnamed/part_000 lines 289-328), indexed
from i and carrying the mutable clicked flag: a visible candidate is
clicked; on a navigating click the flag is set (line 302) before the
go-back interaction runs, and the loop breaks (line 322) only when that
go-back interaction did not throw — a throw there is swallowed by the
catch at lines 324-326 and the loop continues with the next selector, as
it does after a non-navigating or throwing click.  Returns the clicked
indices and the final clicked flag. -/
def collectibleFrom : Nat → Bool → List CollCand → List Nat × Bool
  | _, clicked, [] => ([], clicked)
  | i, clicked, c :: cs =>
    if c.visible then
      if c.clickFails then collectibleFrom (i + 1) clicked cs
      else if c.navigates then
        if c.goBackFails then
          let r := collectibleFrom (i + 1) true cs
          (i :: r.1, r.2)
        else ([i], true)
      else
        let r := collectibleFrom (i + 1) clicked cs
        (i :: r.1, r.2)
    else collectibleFrom (i + 1) clicked cs

/-- The collectibleSelectors loop as called by the script (index 0,
clicked initially false, line 289). -/
def collectibleLoop (cs : List CollCand) : List Nat × Bool :=
  collectibleFrom 0 false cs

/-! ## Outcome classification

unnamed/part_003 lines 212-363: after submitting, the script scans a list
of success texts (first match wins), then a list of error texts (first
match wins), reads whether the URL changed, and classifies.
poap-form-test.js lines 140-194 computes a coarser summary from two
booleans.  unnamed/part_001 lines 200-274 classifies from the redirect
observation alone. -/

/-- The branch taken by the classification in unnamed/part_003 lines
259-363, carrying the evidence the script stores. -/
inductive P3Outcome where
  | errorDetected (msg : String)
  | unexpectedSuccess (msg : String)
  | noRedirectAssumedError
  | unexpectedRedirect
  | successPopup (msg : String)
  | redirectedSuccess
  | failedNoSuccess (err : Option String)
deriving DecidableEq, Repr

/-- The recorded status string for each classification branch, as written
into testResults by unnamed/part_003. -/
def P3Outcome.status : P3Outcome → String
  | P3Outcome.errorDetected _ => "pass"
  | P3Outcome.unexpectedSuccess _ => "fail"
  | P3Outcome.noRedirectAssumedError => "pass"
  | P3Outcome.unexpectedRedirect => "fail"
  | P3Outcome.successPopup _ => "pass"
  | P3Outcome.redirectedSuccess => "pass"
  | P3Outcome.failedNoSuccess _ => "fail"

/-- The classification of unnamed/part_003 lines 259-363.  Arguments are
the scenario's expectError flag, the first success text found (if any),
the first error text found (if any), and whether the URL changed.  The
branch order mirrors the source: in the expectError branch the error
check comes first; in the success branch both pass branches demand that
no error text was found. -/
def testResultP3 (expectError : Bool) (foundSuccessMessage foundErrorMessage : Option String)
    (redirected : Bool) : P3Outcome :=
  if expectError then
    match foundErrorMessage with
    | some m => P3Outcome.errorDetected m
    | none =>
      match foundSuccessMessage with
      | some m => P3Outcome.unexpectedSuccess m
      | none =>
        if !redirected then P3Outcome.noRedirectAssumedError
        else P3Outcome.unexpectedRedirect
  else
    match foundSuccessMessage, foundErrorMessage with
    | some m, none => P3Outcome.successPopup m
    | _, _ =>
      if redirected && foundErrorMessage.isNone then P3Outcome.redirectedSuccess
      else P3Outcome.failedNoSuccess foundErrorMessage

/-- The classification of unnamed/part_001 lines 213-274: only the
redirect observation is consulted.  urlStayed is the comparison
currentUrl === originalUrl made on line 217. -/
def classifyP1 (expectError redirected urlStayed : Bool) : String :=
  if expectError then
    if !redirected && urlStayed then "pass" else "fail"
  else
    if redirected then "pass" else "fail"

/-- The final summary of poap-form-test.js lines 186-194, from the two
scan flags foundSuccess and foundError. -/
def finalSummary (foundSuccess foundError : Bool) : String :=
  if foundSuccess && !foundError then "TEST PASSED"
  else if foundError then "TEST FAILED"
  else "TEST UNCLEAR"

/-! ## Filenames: deviceToFilename, getFormattedDate, video renaming -/

/-- The JavaScript regular-expression class backslash-s (whitespace), for
the code points that can occur here; device names only contain U+0020. -/
def jsWhitespace (c : Char) : Bool :=
  List.contains [9, 10, 11, 12, 13, 32, 160, 0x1680, 0x2028, 0x2029, 0x202f, 0x205f, 0x3000, 0xfeff] c.toNat
  || (0x2000 ≤ c.toNat && c.toNat ≤ 0x200a)

/-- Replace every maximal whitespace run by a single dash, as the
replace of backslash-s-plus by dash does; prevWs records whether the
previous character was part of a run already replaced. -/
def collapseWsAux (prevWs : Bool) : List Char → List Char
  | [] => []
  | c :: cs =>
    if jsWhitespace c then
      if prevWs then collapseWsAux true cs
      else '-' :: collapseWsAux true cs
    else c :: collapseWsAux false cs

/-- Replace every plus sign by the string dash-plus-spelled-out, the
second replace in deviceToFilename. -/
def replacePlus : List Char → List Char
  | [] => []
  | c :: cs =>
    if c = '+' then '-' :: 'p' :: 'l' :: 'u' :: 's' :: replacePlus cs
    else c :: replacePlus cs

/-- deviceToFilename from unnamed/part_001 lines 63-67 (identical in the
other scripts): lowercase, whitespace runs to a dash, plus to dash-plus. -/
def deviceToFilename (deviceName : String) : String :=
  String.mk (replacePlus (collapseWsAux false (deviceName.data.map Char.toLower)))

/-- Two-digit zero padding, the padStart(2, zero) of getFormattedDate. -/
def pad2 (n : Nat) : String :=
  if n < 10 then "0" ++ toString n else toString n

/-- getFormattedDate from unnamed/part_001 lines 54-60, applied to the
run date's components (day, month 1-12, year): DD-MM-YYYY. -/
def getFormattedDate (day month year : Nat) : String :=
  pad2 day ++ "-" ++ pad2 month ++ "-" ++ toString year

/-- The rename target used by the mint-form suites (unnamed/part_001 line
301, unnamed/part_003 line 390). -/
def newVideoNameMint (deviceName date : String) : String :=
  deviceToFilename deviceName ++ "-" ++ date ++ ".webm"

/-- The rename target used by the three passport suites (unnamed/part_000
lines 535, 1308, 1854): same pattern with a passport- prefix. -/
def newVideoNamePassport (deviceName date : String) : String :=
  "passport-" ++ deviceToFilename deviceName ++ "-" ++ date ++ ".webm"

/-- The device list of unnamed/part_001 (the only script listing the
Galaxy S21 Ultra). -/
def devicesToTestMint : List String :=
  ["iPhone SE", "iPhone 13 Pro", "iPhone 14 Pro Max", "Pixel 5", "Galaxy S9+", "Galaxy S21 Ultra"]

/-- The device list shared by unnamed/part_000 and unnamed/part_003. -/
def devicesToTestPassport : List String :=
  ["iPhone SE", "iPhone 13 Pro", "iPhone 14 Pro Max", "Pixel 5", "Galaxy S9+", "Galaxy S24"]

/-! ## Scenario and device recording

unnamed/part_001 lines 140-313 (and the same shape in unnamed/part_003):
for each device a fresh empty object is stored, then for each scenario the
step sequence runs inside a try; each branch assigns exactly one record to
testResults at the scenario's name, and the per-scenario catch assigns an
error record instead; a per-device catch stores the message under the
error key of the device's object.  JavaScript object assignment replaces
the value in place when the key exists and appends the key otherwise;
setKey models that. -/

/-- One scenario row of the testScenarios table (unnamed/part_001 lines
20-51): name, input value (none means generate a timestamped email), and
the expectError flag. -/
structure Scenario where
  name : String
  email : Option String
  expectError : Bool
deriving DecidableEq, Repr

/-- One record written into testResults for a scenario, with the fields
that occur in unnamed/part_001 (absent fields are none). -/
structure Outcome where
  status : String
  message : String
  screenshot : Option String := none
  redirectUrl : Option String := none
deriving DecidableEq, Repr

/-- JavaScript object assignment on a key-ordered object: replace in place
when the key is present, append otherwise. -/
def setKey {α : Type} (m : List (String × α)) (k : String) (v : α) : List (String × α) :=
  if (m.map Prod.fst).contains k then
    m.map (fun kv => if kv.1 = k then (k, v) else kv)
  else m ++ [(k, v)]

/-- Whether an assignment to key k would overwrite an existing entry. -/
def setKeyHit {α : Type} (m : List (String × α)) (k : String) : Bool :=
  (m.map Prod.fst).contains k

/-- The record stored for one scenario: the outcome its branches produced,
or — when the step sequence throws — the status-error record built by the
per-scenario catch (unnamed/part_001 lines 276-282). -/
def scenarioEntry (run : Scenario → Except String Outcome) (sc : Scenario) : Outcome :=
  match run sc with
  | Except.ok o => o
  | Except.error msg => ⟨"error", msg, none, none⟩

/-- The per-device scenario loop (unnamed/part_001 lines 140-286): fold
over the scenario table, assigning each scenario's record into the
device's object.  Also returns whether any assignment overwrote an
existing entry. -/
def runScenarios (run : Scenario → Except String Outcome) (scs : List Scenario) :
    List (String × Outcome) × Bool :=
  scs.foldl
    (fun acc sc => (setKey acc.1 sc.name (scenarioEntry run sc), acc.2 || setKeyHit acc.1 sc.name))
    ([], false)

/-- A device's entry in the results map: the scenario records it
accumulated, and the error field the per-device catch may add. -/
structure DeviceEntry where
  scenarios : List (String × Outcome)
  error : Option String
deriving DecidableEq, Repr

/-- The message thrown when a device profile is missing from the Playwright
device registry (unnamed/part_003 line 112). -/
def deviceNotFoundMsg (d : String) : String :=
  "Device \"" ++ d ++ "\" not found in Playwright devices"

/-- One device's sweep (unnamed/part_003 lines 99-401): looking up the
device profile happens before any scenario runs; when it is missing the
throw is caught by the per-device catch, which stores the message under
the device's error key, and no scenario of that device runs.  Otherwise
all scenarios run and no error field is set. -/
def deviceSweep (registry : String → Option Unit) (run : String → Scenario → Except String Outcome)
    (scs : List Scenario) (d : String) : DeviceEntry :=
  match registry d with
  | none => ⟨[], some (deviceNotFoundMsg d)⟩
  | some _ => ⟨(runScenarios (run d) scs).1, none⟩

/-- The outer device loop: fold over the device list, assigning each
device's entry into the results map under the device name. -/
def runDevices (registry : String → Option Unit) (run : String → Scenario → Except String Outcome)
    (scs : List Scenario) (ds : List String) : List (String × DeviceEntry) :=
  ds.foldl (fun acc d => setKey acc d (deviceSweep registry run scs d)) []

/-- The testScenarios table of unnamed/part_001 lines 20-51. -/
def testScenariosMint : List Scenario :=
  [⟨"already-used-email", some "test@example.com", true⟩,
   ⟨"bad-format-email", some "notanemail", true⟩,
   ⟨"invalid-eth", some "0xfmifeo", true⟩,
   ⟨"invalid-ens", some "cuchipando..eth", true⟩,
   ⟨"valid-unique-email", none, false⟩]

/-! ## The passport navigation recorder (unnamed/part_000 lines 194-521)

The first passport script records step results under fixed keys, but
several of those assignments sit inside visibility conditionals with no
else branch: benefits (line 368, inside the benefitsNav-visible block
opened at line 335), hunt (line 400), scan (line 456) and settings (line
519) are written only when the corresponding element was visible, so the
key is absent from the device's results otherwise. -/

/-- The page observations the passport navigation script branches on. -/
structure PassportEnv where
  ethErrorVisible : Bool
  ensErrorVisible : Bool
  collCands : List CollCand
  benefitsNavVisible : Bool
  benefitCands : List CandObs
  huntNavVisible : Bool
  huntVisible : Bool
  scanButtonVisible : Bool
  backButtonScanFound : Bool
  settingsVisible : Bool
  signOutVisible : Bool
deriving Repr

/-- The per-device results object built by unnamed/part_000 lines 194-521,
in assignment order.  validation_eth, validation_ens, login, collection
and leaderboard are always written; benefits, hunt, scan and settings only
when their guarding elements are visible. -/
def passportDeviceResults (env : PassportEnv) : List (String × String) :=
  [("validation_eth", if env.ethErrorVisible then "pass" else "fail"),
   ("validation_ens", if env.ensErrorVisible then "pass" else "fail"),
   ("login", "pass"),
   ("collection", if (collectibleLoop env.collCands).2 then "pass" else "fail")]
  ++ (if env.benefitsNavVisible then
        [("benefits", if (resolveAndAct env.benefitCands).1 then "pass" else "fail")]
      else [])
  ++ (if env.huntNavVisible && env.huntVisible then [("hunt", "pass")] else [])
  ++ [("leaderboard", "pass")]
  ++ (if env.scanButtonVisible && env.backButtonScanFound then [("scan", "pass")] else [])
  ++ (if env.settingsVisible && env.signOutVisible then [("settings", "pass")] else [])

/-! ## Results-JSON serialization (unnamed/part_001 lines 317-320)

The scripts end with a stringify of testResults with indent 2 written to
the results file.  A results map is a two-level object: device name to an
object mapping each result key either to a plain string (the passport
navigation script and the device-level error field) or to an object of
string fields (the scenario records).  stringifyResults below renders that
structure exactly as the ECMAScript JSON.stringify with gap two spaces
does (member lines indented two spaces per level, strings quoted with the
standard escapes); parseResults is a whitespace-tolerant parser for the
same shape, modelling what reloading the file with JSON.parse yields. -/

/-- A value of one device-level key: a bare string or an object of string
fields. -/
inductive DevVal where
  | str (s : String)
  | obj (fields : List (String × String))
deriving DecidableEq, Repr

/-- A device's results object. -/
abbrev DeviceMap := List (String × DevVal)

/-- The whole results map, keyed by device name. -/
abbrev ResultsMap := List (String × DeviceMap)

/-- The lowercase hex digit for n below 16, as JSON.stringify emits in
backslash-u escapes. -/
def hexDigitChar (n : Nat) : Char :=
  if n < 10 then Char.ofNat (48 + n) else Char.ofNat (87 + n)

/-- One character of a JSON string literal, escaped exactly as the
ECMAScript QuoteJSONString operation does: quote, backslash and the five
short control escapes get a backslash form, other control characters get
a backslash-u escape, and everything else stands for itself. -/
def escapeJsonChar (c : Char) : List Char :=
  if c = '"' then ['\\', '"']
  else if c = '\\' then ['\\', '\\']
  else if c = Char.ofNat 8 then ['\\', 'b']
  else if c = Char.ofNat 9 then ['\\', 't']
  else if c = Char.ofNat 10 then ['\\', 'n']
  else if c = Char.ofNat 12 then ['\\', 'f']
  else if c = Char.ofNat 13 then ['\\', 'r']
  else if c.toNat < 32 then
    ['\\', 'u', '0', '0', hexDigitChar (c.toNat / 16), hexDigitChar (c.toNat % 16)]
  else [c]

/-- A complete JSON string literal for s, quotes included. -/
def quoteJson (s : String) : List Char :=
  '"' :: (s.data.flatMap escapeJsonChar ++ ['"'])

/-- One member line of a pretty-printed object: indent, quoted key, colon,
space, rendered value. -/
def renderEntry {α : Type} (ind : List Char) (rv : α → List Char) (kv : String × α) : List Char :=
  ind ++ (quoteJson kv.1 ++ ':' :: ' ' :: rv kv.2)

/-- The members after the first, each preceded by comma and newline. -/
def renderMoreEntries {α : Type} (ind : List Char) (rv : α → List Char) :
    List (String × α) → List Char
  | [] => []
  | kv :: rest => ',' :: '\n' :: (renderEntry ind rv kv ++ renderMoreEntries ind rv rest)

/-- A pretty-printed object whose opening brace sits on a line indented by
ind: members are indented two spaces further, and the closing brace
returns to ind — the layout JSON.stringify with gap two produces. -/
def renderObj {α : Type} (ind : List Char) (rv : α → List Char) :
    List (String × α) → List Char
  | [] => ['{', '}']
  | kv :: rest =>
    '{' :: '\n' ::
      (renderEntry (ind ++ [' ', ' ']) rv kv ++ renderMoreEntries (ind ++ [' ', ' ']) rv rest
        ++ '\n' :: (ind ++ ['}']))

/-- A device-level value: a quoted string, or an object whose brace line
is indented four spaces (device key lines are indented four). -/
def renderDevVal : DevVal → List Char
  | DevVal.str s => quoteJson s
  | DevVal.obj fs => renderObj [' ', ' ', ' ', ' '] quoteJson fs

/-- A device's object, whose brace line is indented two spaces. -/
def renderDevice (d : DeviceMap) : List Char :=
  renderObj [' ', ' '] renderDevVal d

/-- The file content written at the end of a run: the model of
JSON.stringify of testResults with indent 2. -/
def stringifyResults (r : ResultsMap) : String :=
  String.mk (renderObj [] renderDevice r)

/-- The JSON whitespace characters (space, newline, tab, carriage
return). -/
def jsonWs (c : Char) : Bool :=
  c = ' ' || c = '\n' || c = '\t' || c = '\r'

/-- Drop leading JSON whitespace, as JSON.parse does between tokens. -/
def dropWs : List Char → List Char
  | [] => []
  | c :: cs => if jsonWs c then dropWs cs else c :: cs

/-- The numeric value of one hex digit, either case. -/
def hexDigitVal (c : Char) : Option Nat :=
  if '0' ≤ c ∧ c ≤ '9' then some (c.toNat - 48)
  else if 'a' ≤ c ∧ c ≤ 'f' then some (c.toNat - 87)
  else if 'A' ≤ c ∧ c ≤ 'F' then some (c.toNat - 55)
  else none

/-- The character named by a single-character JSON escape. -/
def unescapeJson (c : Char) : Option Char :=
  if c = '"' then some '"'
  else if c = '\\' then some '\\'
  else if c = '/' then some '/'
  else if c = 'b' then some (Char.ofNat 8)
  else if c = 'f' then some (Char.ofNat 12)
  else if c = 'n' then some (Char.ofNat 10)
  else if c = 'r' then some (Char.ofNat 13)
  else if c = 't' then some (Char.ofNat 9)
  else none

/-- Parse the body of a string literal after the opening quote, up to and
including the closing quote; returns the characters and the rest of the
input. -/
def parseStrBody : List Char → Option (List Char × List Char)
  | [] => none
  | '"' :: rest => some ([], rest)
  | '\\' :: 'u' :: h1 :: h2 :: h3 :: h4 :: rest =>
    match hexDigitVal h1, hexDigitVal h2, hexDigitVal h3, hexDigitVal h4 with
    | some a, some b, some c, some d =>
      (parseStrBody rest).map
        (fun p => (Char.ofNat (((a * 16 + b) * 16 + c) * 16 + d) :: p.1, p.2))
    | _, _, _, _ => none
  | '\\' :: e :: rest =>
    match unescapeJson e with
    | some c => (parseStrBody rest).map (fun p => (c :: p.1, p.2))
    | none => none
  | c :: rest => (parseStrBody rest).map (fun p => (c :: p.1, p.2))

/-- Parse a JSON string literal starting at the opening quote. -/
def parseJsonString (cs : List Char) : Option (String × List Char) :=
  match cs with
  | '"' :: rest => (parseStrBody rest).map (fun p => (String.mk p.1, p.2))
  | _ => none

/-- Parse the members of an object (positioned at or before the first
key), given a parser for the value type; fuel bounds the member count. -/
def parseMoreEntries {α : Type} (pv : List Char → Option (α × List Char)) :
    Nat → List Char → Option (List (String × α) × List Char)
  | 0, _ => none
  | fuel + 1, cs =>
    match parseJsonString (dropWs cs) with
    | none => none
    | some (k, r1) =>
      match dropWs r1 with
      | ':' :: r2 =>
        match pv (dropWs r2) with
        | none => none
        | some (v, r3) =>
          match dropWs r3 with
          | ',' :: r4 => (parseMoreEntries pv fuel r4).map (fun p => ((k, v) :: p.1, p.2))
          | '}' :: r4 => some ([(k, v)], r4)
          | _ => none
      | _ => none

/-- Parse a JSON object starting at its opening brace. -/
def parseObj {α : Type} (pv : List Char → Option (α × List Char)) (fuel : Nat)
    (cs : List Char) : Option (List (String × α) × List Char) :=
  match cs with
  | '{' :: r =>
    match dropWs r with
    | '}' :: r2 => some ([], r2)
    | r2 => parseMoreEntries pv fuel r2
  | _ => none

/-- Parse a device-level value: an object of string fields when the input
starts with a brace, a bare string otherwise. -/
def parseDevVal (fuel : Nat) (cs : List Char) : Option (DevVal × List Char) :=
  match cs with
  | '{' :: r =>
    (parseObj parseJsonString fuel ('{' :: r)).map (fun p => (DevVal.obj p.1, p.2))
  | _ => (parseJsonString cs).map (fun p => (DevVal.str p.1, p.2))

/-- Parse one device's object. -/
def parseDevice (fuel : Nat) (cs : List Char) : Option (DeviceMap × List Char) :=
  parseObj (parseDevVal fuel) fuel cs

/-- Parse a whole results map from character input. -/
def parseResultsChars (fuel : Nat) (cs : List Char) : Option (ResultsMap × List Char) :=
  parseObj (parseDevice fuel) fuel cs

/-- Parse the results file content back into a results map, the model of
JSON.parse applied to the written file: the document must be a results
object followed only by whitespace. -/
def parseResults (s : String) : Option ResultsMap :=
  match parseResultsChars (s.length + 1) (dropWs s.data) with
  | some (r, rest) => if dropWs rest = [] then some r else none
  | none => none

/-! ## Video-file selection for renaming

unnamed/part_001 lines 292-307 (same in the other device-sweep scripts):
after the device's context closes, the script lists the shared video
directory, filters names ending in .webm, sorts them with the default
Array sort — plain code-unit (lexicographic) string comparison — and pops
the last element, i.e. takes the lexicographically greatest name.  The
chosen file is renamed to the new per-device name.  Nothing consults
modification times. -/

/-- The filter predicate: the filename ends in .webm (endsWith on the
character data). -/
def isWebm (f : String) : Bool :=
  List.isSuffixOf ".webm".data f.data

/-- Lexicographic comparison of character lists by code point, the order
the default Array sort comparator induces on these names. -/
def lexLe : List Char → List Char → Bool
  | [], _ => true
  | _ :: _, [] => false
  | a :: as, b :: bs => if a < b then true else if b < a then false else lexLe as bs

/-- Insert a string into a lexLe-sorted list, keeping it sorted. -/
def insertSorted (s : String) : List String → List String
  | [] => [s]
  | x :: xs => if lexLe s.data x.data then s :: x :: xs else x :: insertSorted s xs

/-- Sort a list of strings lexicographically.  The default Array sort is
some sorting algorithm over the same total order; for a total order the
sorted result is the same list, so insertion sort is a faithful model of
the call. -/
def sortStrings (l : List String) : List String :=
  l.foldr insertSorted []

/-- latestVideo from unnamed/part_001 lines 295-298: filter to .webm
names, sort, pop — none when the directory holds no .webm file. -/
def latestVideo (files : List String) : Option String :=
  (sortStrings (files.filter isWebm)).getLast?

/-- The rename step (unnamed/part_001 lines 300-307): when a latest video
exists, the file under that name disappears and the new name appears;
otherwise the directory is untouched. -/
def renameStep (files : List String) (newName : String) : List String :=
  match latestVideo files with
  | none => files
  | some old => newName :: files.erase old

/-! ## Lemmas on the fallback loops -/

/-- The break-after-action loop performs at most one action, whatever the
start index. -/
theorem resolveFrom_actions_le_one (cs : List CandObs) :
    ∀ i : Nat, (resolveFrom i cs).2.length ≤ 1 := by
  induction cs with
  | nil => intro i; simp [resolveFrom]
  | cons c rest ih =>
    intro i
    cases c with
    | visible => simp [resolveFrom]
    | hidden => simpa [resolveFrom] using ih (i + 1)
    | throws => simpa [resolveFrom] using ih (i + 1)

/-- The break-after-action loop acts exactly on the first visible
candidate. -/
theorem resolveFrom_first (cs : List CandObs) :
    ∀ (i j : Nat), cs[j]? = some CandObs.visible →
      (∀ k, k < j → cs[k]? ≠ some CandObs.visible) →
      resolveFrom i cs = (true, [i + j]) := by
  induction cs with
  | nil => intro i j hj _; simp at hj
  | cons c rest ih =>
    intro i j hj hmin
    cases j with
    | zero =>
      simp at hj
      subst hj
      simp [resolveFrom]
    | succ j2 =>
      have hc : c ≠ CandObs.visible := by
        intro hcv
        exact hmin 0 (Nat.succ_pos j2) (by simp [hcv])
      have hj2 : rest[j2]? = some CandObs.visible := by simpa using hj
      have hmin2 : ∀ k, k < j2 → rest[k]? ≠ some CandObs.visible := by
        intro k hk
        have := hmin (k + 1) (by omega)
        simpa using this
      have hrec := ih (i + 1) j2 hj2 hmin2
      cases c with
      | visible => exact absurd rfl hc
      | hidden =>
        simp only [resolveFrom, hrec]
        congr 2
        omega
      | throws =>
        simp only [resolveFrom, hrec]
        congr 2
        omega

/-- When no candidate is visible, the break-after-action loop performs no
action and reports failure. -/
theorem resolveFrom_none (cs : List CandObs) :
    ∀ i : Nat, (∀ c ∈ cs, c ≠ CandObs.visible) → resolveFrom i cs = (false, []) := by
  induction cs with
  | nil => intro i _; rfl
  | cons c rest ih =>
    intro i h
    have hc : c ≠ CandObs.visible := h c (List.mem_cons_self c rest)
    have hrest : ∀ x ∈ rest, x ≠ CandObs.visible := fun x hx => h x (List.mem_cons_of_mem c hx)
    cases c with
    | visible => exact absurd rfl hc
    | hidden => simpa [resolveFrom] using ih (i + 1) hrest
    | throws => simpa [resolveFrom] using ih (i + 1) hrest

/-- Every index the collectibleSelectors loop clicks is at least the start
index. -/
theorem collectibleFrom_mem_ge (cs : List CollCand) :
    ∀ (i : Nat) (clicked : Bool) (a : Nat),
      a ∈ (collectibleFrom i clicked cs).1 → i ≤ a := by
  induction cs with
  | nil => intro i clicked a ha; simp [collectibleFrom] at ha
  | cons c rest ih =>
    intro i clicked a ha
    by_cases hv : c.visible
    · by_cases hf : c.clickFails
      · have := ih (i + 1) clicked a (by simpa [collectibleFrom, hv, hf] using ha)
        omega
      · by_cases hn : c.navigates
        · by_cases hg : c.goBackFails
          · simp only [collectibleFrom, hv, hf, hn, hg, if_true, if_false,
              Bool.not_eq_true] at ha
            rcases List.mem_cons.mp ha with h1 | h2
            · omega
            · have := ih (i + 1) true a h2
              omega
          · simp [collectibleFrom, hv, hf, hn, hg] at ha
            omega
        · simp only [collectibleFrom, hv, hf, hn, if_true, if_false, Bool.not_eq_true] at ha
          rcases List.mem_cons.mp ha with h1 | h2
          · omega
          · have := ih (i + 1) clicked a h2
            omega
    · have := ih (i + 1) clicked a (by simpa [collectibleFrom, hv] using ha)
      omega

/-- Of two clicks the collectibleSelectors loop performs, the earlier one
hit a visible candidate whose completed click either did not change the
URL or was followed by a throwing go-back interaction: those are the only
ways the loop continues past a completed click to a later candidate. -/
theorem collectibleFrom_click_continue (cs : List CollCand) :
    ∀ (i : Nat) (clicked : Bool) (a b : Nat),
      a ∈ (collectibleFrom i clicked cs).1 → b ∈ (collectibleFrom i clicked cs).1 →
      a < b → ∃ c, cs[a - i]? = some c ∧ c.visible = true ∧ c.clickFails = false ∧
        (c.navigates = false ∨ c.goBackFails = true) := by
  induction cs with
  | nil => intro i clicked a b ha _ _; simp [collectibleFrom] at ha
  | cons c rest ih =>
    intro i clicked a b ha hb hab
    by_cases hv : c.visible
    · by_cases hf : c.clickFails
      · have ha2 : a ∈ (collectibleFrom (i + 1) clicked rest).1 := by
          simpa [collectibleFrom, hv, hf] using ha
        have hb2 : b ∈ (collectibleFrom (i + 1) clicked rest).1 := by
          simpa [collectibleFrom, hv, hf] using hb
        obtain ⟨c0, hc0, hcv, hcf, hcn⟩ := ih (i + 1) clicked a b ha2 hb2 hab
        have hge : i + 1 ≤ a := collectibleFrom_mem_ge rest (i + 1) clicked a ha2
        refine ⟨c0, ?_, hcv, hcf, hcn⟩
        have hidx : a - i = (a - (i + 1)) + 1 := by omega
        rw [hidx]
        simpa using hc0
      · by_cases hn : c.navigates
        · by_cases hg : c.goBackFails
          · simp only [collectibleFrom, hv, hf, hn, hg, if_true, if_false] at ha hb
            rcases List.mem_cons.mp ha with ha1 | ha2
            · refine ⟨c, ?_, hv, by simpa using hf, Or.inr hg⟩
              have : a - i = 0 := by omega
              simp [this]
            · have hge : i + 1 ≤ a := collectibleFrom_mem_ge rest (i + 1) true a ha2
              have hb2 : b ∈ (collectibleFrom (i + 1) true rest).1 := by
                rcases List.mem_cons.mp hb with hb1 | hb2
                · omega
                · exact hb2
              obtain ⟨c0, hc0, hcv, hcf, hcn⟩ := ih (i + 1) true a b ha2 hb2 hab
              refine ⟨c0, ?_, hcv, hcf, hcn⟩
              have hidx : a - i = (a - (i + 1)) + 1 := by omega
              rw [hidx]
              simpa using hc0
          · have ha1 : a = i := by simpa [collectibleFrom, hv, hf, hn, hg] using ha
            have hb1 : b = i := by simpa [collectibleFrom, hv, hf, hn, hg] using hb
            omega
        · simp only [collectibleFrom, hv, hf, hn, if_true, if_false] at ha hb
          rcases List.mem_cons.mp ha with ha1 | ha2
          · refine ⟨c, ?_, hv, by simpa using hf, Or.inl (by simpa using hn)⟩
            have : a - i = 0 := by omega
            simp [this]
          · have hge : i + 1 ≤ a := collectibleFrom_mem_ge rest (i + 1) clicked a ha2
            have hb2 : b ∈ (collectibleFrom (i + 1) clicked rest).1 := by
              rcases List.mem_cons.mp hb with hb1 | hb2
              · omega
              · exact hb2
            obtain ⟨c0, hc0, hcv, hcf, hcn⟩ := ih (i + 1) clicked a b ha2 hb2 hab
            refine ⟨c0, ?_, hcv, hcf, hcn⟩
            have hidx : a - i = (a - (i + 1)) + 1 := by omega
            rw [hidx]
            simpa using hc0
    · have ha2 : a ∈ (collectibleFrom (i + 1) clicked rest).1 := by
        simpa [collectibleFrom, hv] using ha
      have hb2 : b ∈ (collectibleFrom (i + 1) clicked rest).1 := by
        simpa [collectibleFrom, hv] using hb
      obtain ⟨c0, hc0, hcv, hcf, hcn⟩ := ih (i + 1) clicked a b ha2 hb2 hab
      have hge : i + 1 ≤ a := collectibleFrom_mem_ge rest (i + 1) clicked a ha2
      refine ⟨c0, ?_, hcv, hcf, hcn⟩
      have hidx : a - i = (a - (i + 1)) + 1 := by omega
      rw [hidx]
      simpa using hc0

/-! ## Claim theorems: fallback loops, classification, filenames -/

/-- C1 (counterexample): the claim that the action is performed on at most
one candidate fails on the collectibleSelectors loop.  With two visible
candidates whose first click does not change the URL, the loop clicks
candidate 0 and then candidate 1; the same double click happens when the
first click does navigate but the go-back interaction after it throws:
two side effects in one call either way. -/
theorem c1_collectible_double_click_counterexample :
    (collectibleLoop [⟨true, false, false, false⟩, ⟨true, false, true, false⟩]).1 = [0, 1]
    ∧ ¬ ((collectibleLoop
          [⟨true, false, false, false⟩, ⟨true, false, true, false⟩]).1.length ≤ 1)
    ∧ (collectibleLoop [⟨true, false, true, true⟩, ⟨true, false, false, false⟩]).1 = [0, 1] := by
  decide

/-- C1 (amended): the break-after-action fallback loops (startClicked,
inputFilled, submit, benefit) perform at most one action, always on the
first visible candidate, and exit immediately after it; the
collectibleSelectors loop may click several candidates — a second
candidate is clicked only when the earlier clicked candidate was visible,
its click completed, and either that click did not change the URL or the
go-back interaction following the navigation threw. -/
theorem c1_fallback_single_action :
    (∀ cs : List CandObs, (resolveAndAct cs).2.length ≤ 1)
    ∧ (∀ (cs : List CandObs) (j : Nat), cs[j]? = some CandObs.visible →
        (∀ k, k < j → cs[k]? ≠ some CandObs.visible) →
        resolveAndAct cs = (true, [j]))
    ∧ (∀ (cs : List CollCand) (a b : Nat), a ∈ (collectibleLoop cs).1 →
        b ∈ (collectibleLoop cs).1 → a < b →
        ∃ c, cs[a]? = some c ∧ c.visible = true ∧ c.clickFails = false ∧
          (c.navigates = false ∨ c.goBackFails = true)) := by
  refine ⟨fun cs => resolveFrom_actions_le_one cs 0, ?_, ?_⟩
  · intro cs j hj hmin
    simpa [resolveAndAct] using resolveFrom_first cs 0 j hj hmin
  · intro cs a b ha hb hab
    simpa using collectibleFrom_click_continue cs 0 false a b ha hb hab

/-- Witness for c1_fallback_single_action at a concrete candidate list. -/
theorem c1_fallback_single_action_witness :
    resolveAndAct [CandObs.hidden, CandObs.visible, CandObs.visible] = (true, [1]) :=
  c1_fallback_single_action.2.1 [CandObs.hidden, CandObs.visible, CandObs.visible] 1
    (by decide)
    (by
      intro k hk
      have hz : k = 0 := Nat.lt_one_iff.mp hk
      subst hz
      decide)

/-- C2: when an error pattern and a success pattern are both observed, the
classification goes through the error branch in both the expected-error
scenario branch (error detected, recorded pass) and the expected-success
branch (recorded fail carrying the error), and the poap-form-test summary
reports failure: the success indication never overrides the error. -/
theorem c2_error_precedence :
    (∀ (e s : String) (r : Bool),
        testResultP3 true (some s) (some e) r = P3Outcome.errorDetected e
        ∧ (testResultP3 true (some s) (some e) r).status = "pass")
    ∧ (∀ (e s : String) (r : Bool),
        testResultP3 false (some s) (some e) r = P3Outcome.failedNoSuccess (some e)
        ∧ (testResultP3 false (some s) (some e) r).status = "fail")
    ∧ finalSummary true true = "TEST FAILED" := by
  refine ⟨fun e s r => ⟨rfl, rfl⟩, fun e s r => ?_, rfl⟩
  constructor
  · simp [testResultP3]
  · simp [testResultP3, P3Outcome.status]

/-- C4: when no candidate resolves, the fallback loop returns a false
success flag (exceptions from candidates are swallowed inside the loop)
and the set of performed actions is empty. -/
theorem c4_no_candidate_effect_free (cs : List CandObs)
    (h : ∀ c ∈ cs, c ≠ CandObs.visible) :
    resolveAndAct cs = (false, []) :=
  resolveFrom_none cs 0 h

/-- Witness for c4_no_candidate_effect_free at a concrete candidate list
mixing a timed-out candidate and a throwing one. -/
theorem c4_no_candidate_effect_free_witness :
    resolveAndAct [CandObs.hidden, CandObs.throws, CandObs.hidden] = (false, []) :=
  c4_no_candidate_effect_free [CandObs.hidden, CandObs.throws, CandObs.hidden] (by decide)

/-- C7: with expectError set and the bounded wait ending with no error
text, no success text and no redirect, both classifiers record pass:
part_003 takes the no-redirect-assumed-error branch, and part_001 passes
on no-redirect with the URL unchanged. -/
theorem c7_timeout_expect_error_pass :
    testResultP3 true none none false = P3Outcome.noRedirectAssumedError
    ∧ (testResultP3 true none none false).status = "pass"
    ∧ classifyP1 true false true = "pass" := by
  exact ⟨rfl, rfl, rfl⟩

/-! ## Lemmas on the recording folds -/

/-- The scenario fold, started from an accumulator none of the scenario
names hit: every assignment appends a fresh key, so the result is the
accumulator followed by one record per scenario in table order, and the
overwrite flag never turns on. -/
theorem runScenarios_fold_fresh (run : Scenario → Except String Outcome) :
    ∀ (scs : List Scenario) (acc : List (String × Outcome)) (flag : Bool),
      (∀ sc ∈ scs, sc.name ∉ acc.map Prod.fst) →
      (scs.map Scenario.name).Nodup →
      scs.foldl
        (fun a sc => (setKey a.1 sc.name (scenarioEntry run sc), a.2 || setKeyHit a.1 sc.name))
        (acc, flag)
      = (acc ++ scs.map (fun sc => (sc.name, scenarioEntry run sc)), flag) := by
  intro scs
  induction scs with
  | nil => intro acc flag _ _; simp
  | cons sc rest ih =>
    intro acc flag hfresh hnd
    have hsc : sc.name ∉ acc.map Prod.fst := hfresh sc (List.mem_cons_self sc rest)
    have hcont : (acc.map Prod.fst).contains sc.name = false := by simpa using hsc
    have hstep :
        setKey acc sc.name (scenarioEntry run sc) = acc ++ [(sc.name, scenarioEntry run sc)] := by
      simp only [setKey, hcont, Bool.false_eq_true, if_false]
    have hhit : setKeyHit acc sc.name = false := by simpa [setKeyHit] using hsc
    have hni : sc.name ∉ rest.map Scenario.name := by
      have := hnd
      simp only [List.map_cons, List.nodup_cons] at this
      exact this.1
    have hfresh2 :
        ∀ s2 ∈ rest, s2.name ∉ (acc ++ [(sc.name, scenarioEntry run sc)]).map Prod.fst := by
      intro s2 hs2
      simp only [List.map_append, List.mem_append, List.map_cons, List.map_nil,
        List.mem_singleton, not_or]
      refine ⟨hfresh s2 (List.mem_cons_of_mem sc hs2), ?_⟩
      intro heq
      exact hni (heq ▸ List.mem_map_of_mem Scenario.name hs2)
    have hnd2 : (rest.map Scenario.name).Nodup := by
      have := hnd
      simp only [List.map_cons, List.nodup_cons] at this
      exact this.2
    simp only [List.foldl_cons, hstep, hhit, Bool.or_false]
    rw [ih (acc ++ [(sc.name, scenarioEntry run sc)]) flag hfresh2 hnd2]
    simp

/-- The device fold appends one entry per device in list order when the
device names are distinct. -/
theorem runDevices_fold_fresh (registry : String → Option Unit)
    (run : String → Scenario → Except String Outcome) (scs : List Scenario) :
    ∀ (ds : List String) (acc : List (String × DeviceEntry)),
      (∀ d ∈ ds, d ∉ acc.map Prod.fst) → ds.Nodup →
      ds.foldl (fun a d => setKey a d (deviceSweep registry run scs d)) acc
        = acc ++ ds.map (fun d => (d, deviceSweep registry run scs d)) := by
  intro ds
  induction ds with
  | nil => intro acc _ _; simp
  | cons d rest ih =>
    intro acc hfresh hnd
    have hd : d ∉ acc.map Prod.fst := hfresh d (List.mem_cons_self d rest)
    have hcont : (acc.map Prod.fst).contains d = false := by simpa using hd
    have hstep :
        setKey acc d (deviceSweep registry run scs d)
          = acc ++ [(d, deviceSweep registry run scs d)] := by
      simp only [setKey, hcont, Bool.false_eq_true, if_false]
    have hni : d ∉ rest := (List.nodup_cons.mp hnd).1
    have hfresh2 :
        ∀ d2 ∈ rest, d2 ∉ (acc ++ [(d, deviceSweep registry run scs d)]).map Prod.fst := by
      intro d2 hd2
      simp only [List.map_append, List.mem_append, List.map_cons, List.map_nil,
        List.mem_singleton, not_or]
      exact ⟨hfresh d2 (List.mem_cons_of_mem d hd2), fun heq => hni (heq ▸ hd2)⟩
    simp only [List.foldl_cons, hstep]
    rw [ih (acc ++ [(d, deviceSweep registry run scs d)]) hfresh2 (List.nodup_cons.mp hnd).2]
    simp

/-- Looking a key up in an association list built over distinct keys
returns that key's image. -/
theorem lookup_map_assoc {α : Type} (g : String → α) :
    ∀ (ds : List String) (d : String), d ∈ ds → ds.Nodup →
      List.lookup d (ds.map fun x => (x, g x)) = some (g d) := by
  intro ds
  induction ds with
  | nil => intro d hd _; simp at hd
  | cons a rest ih =>
    intro d hd hnd
    rcases List.mem_cons.mp hd with h1 | h2
    · subst h1
      simp [List.lookup]
    · have hne : d ≠ a := by
        intro heq
        exact (List.nodup_cons.mp hnd).1 (heq ▸ h2)
      have hbeq : (d == a) = false := by simpa using hne
      simp only [List.map_cons, List.lookup, hbeq]
      exact ih d h2 (List.nodup_cons.mp hnd).2

/-! ## Lemmas on the results-JSON codec -/

/-- Dropping whitespace leaves a non-whitespace-headed input alone. -/
theorem dropWs_not_ws {c : Char} (h : jsonWs c = false) (cs : List Char) :
    dropWs (c :: cs) = c :: cs := by
  simp [dropWs, h]

/-- A whitespace prefix is consumed entirely. -/
theorem dropWs_ws_run : ∀ (p : List Char), (∀ c ∈ p, jsonWs c = true) →
    ∀ cs : List Char, dropWs (p ++ cs) = dropWs cs := by
  intro p
  induction p with
  | nil => intro _ cs; rfl
  | cons c p2 ih =>
    intro h cs
    have hc : jsonWs c = true := h c (List.mem_cons_self c p2)
    simp only [List.cons_append, dropWs, hc, if_true]
    exact ih (fun x hx => h x (List.mem_cons_of_mem c hx)) cs

/-- Dropping whitespace is idempotent. -/
theorem dropWs_idem : ∀ cs : List Char, dropWs (dropWs cs) = dropWs cs := by
  intro cs
  induction cs with
  | nil => rfl
  | cons c cs2 ih =>
    cases h : jsonWs c with
    | true => simp only [dropWs, h, if_true]; exact ih
    | false =>
      rw [dropWs_not_ws h cs2]
      exact dropWs_not_ws h cs2

/-- The hex digit characters decode to their values. -/
theorem hexDigitVal_hexDigitChar (n : Nat) (h : n < 16) :
    hexDigitVal (hexDigitChar n) = some n := by
  interval_cases n <;> decide

/-- Parsing one escaped character prepends exactly that character. -/
theorem parseStrBody_escape (c : Char) (cs : List Char) :
    parseStrBody (escapeJsonChar c ++ cs)
      = (parseStrBody cs).map (fun p => (c :: p.1, p.2)) := by
  by_cases h1 : c = '"'
  · subst h1; rfl
  · by_cases h2 : c = '\\'
    · subst h2; rfl
    · by_cases h3 : c = Char.ofNat 8
      · subst h3; rfl
      · by_cases h4 : c = Char.ofNat 9
        · subst h4; rfl
        · by_cases h5 : c = Char.ofNat 10
          · subst h5; rfl
          · by_cases h6 : c = Char.ofNat 12
            · subst h6; rfl
            · by_cases h7 : c = Char.ofNat 13
              · subst h7; rfl
              · by_cases h8 : c.toNat < 32
                · have hdiv : c.toNat / 16 < 16 := by omega
                  have hmod : c.toNat % 16 < 16 := Nat.mod_lt _ (by omega)
                  simp only [escapeJsonChar, h1, h2, h3, h4, h5, h6, h7, h8, if_false, if_true,
                    List.cons_append, List.nil_append, parseStrBody,
                    hexDigitVal_hexDigitChar _ hdiv, hexDigitVal_hexDigitChar _ hmod]
                  have harith :
                      (((0 * 16 + 0) * 16 + c.toNat / 16) * 16 + c.toNat % 16) = c.toNat := by
                    omega
                  rw [show hexDigitVal '0' = some 0 from by decide]
                  simp only [harith, Char.ofNat_toNat]
                · have hesc : escapeJsonChar c = [c] := by
                    simp [escapeJsonChar, h1, h2, h3, h4, h5, h6, h7, h8]
                  rw [hesc]
                  rw [parseStrBody.eq_def]
                  simp only [List.cons_append, List.nil_append]
                  have h32 : ¬ c.toNat < 32 := h8
                  have hq : c ≠ '"' := h1
                  have hb : c ≠ '\\' := h2
                  split
                  all_goals rename_i heq
                  all_goals
                    first
                      | (injection heq with hh ht
                         first
                           | exact absurd hh hq
                           | exact absurd hh hb
                           | (subst hh; subst ht; rfl))
                      | injection heq

/-- Parsing an escaped run stops exactly at the closing quote and yields
the original characters. -/
theorem parseStrBody_flat : ∀ (ds cs : List Char),
    parseStrBody (ds.flatMap escapeJsonChar ++ '"' :: cs) = some (ds, cs) := by
  intro ds
  induction ds with
  | nil => intro cs; rfl
  | cons d ds2 ih =>
    intro cs
    rw [List.flatMap_cons, List.append_assoc, parseStrBody_escape, ih]
    rfl

/-- The string-literal codec round-trip. -/
theorem parseJsonString_quote (s : String) (rest : List Char) :
    parseJsonString (quoteJson s ++ rest) = some (s, rest) := by
  show parseJsonString ('"' :: (s.data.flatMap escapeJsonChar ++ ['"']) ++ rest) = _
  simp only [parseJsonString, List.cons_append, List.append_assoc, List.cons_append,
    List.nil_append, parseStrBody_flat]
  rfl

/-- A quoted string never starts with whitespace. -/
theorem dropWs_quote (s : String) (rest : List Char) :
    dropWs (quoteJson s ++ rest) = quoteJson s ++ rest := by
  show dropWs ('"' :: _) = _
  exact dropWs_not_ws (by decide) _

/-- Dropping whitespace consumes a whitespace head. -/
theorem dropWs_cons_ws {c : Char} (h : jsonWs c = true) (cs : List Char) :
    dropWs (c :: cs) = dropWs cs := by
  simp [dropWs, h]

/-- Parsing the members of a rendered object (first entry onward) returns
exactly those members and the input following the closing brace.  The
input is any cs whose whitespace-stripped form is the rendered first
entry, the rendered remaining entries, and the closing line. -/
theorem parseMore_round {α : Type} (pv : List Char → Option (α × List Char))
    (rv : α → List Char) (ind : List Char)
    (hind : ∀ c ∈ ind, jsonWs c = true) :
    ∀ (l : List (String × α)) (kv : String × α) (fuel : Nat) (cs rest : List Char),
      l.length < fuel →
      (∀ p ∈ kv :: l, ∀ r2 : List Char, pv (rv p.2 ++ r2) = some (p.2, r2)) →
      (∀ p ∈ kv :: l, ∀ r2 : List Char, dropWs (rv p.2 ++ r2) = rv p.2 ++ r2) →
      dropWs cs
        = quoteJson kv.1 ++ ':' :: ' ' ::
            (rv kv.2 ++ (renderMoreEntries (ind ++ [' ', ' ']) rv l
              ++ '\n' :: (ind ++ '}' :: rest))) →
      parseMoreEntries pv fuel cs = some (kv :: l, rest) := by
  have hind2 : ∀ c ∈ ind ++ [' ', ' '], jsonWs c = true := by
    intro c hc
    rcases List.mem_append.mp hc with h1 | h2
    · exact hind c h1
    · rcases List.mem_cons.mp h2 with h3 | h3
      · rw [h3]; rfl
      · rcases List.mem_singleton.mp h3 with rfl; rfl
  intro l
  induction l with
  | nil =>
    intro kv fuel cs rest hfuel hpv hvws hcs
    cases fuel with
    | zero => omega
    | succ f =>
      have hval : pv (dropWs (' ' :: (rv kv.2 ++ ('\n' :: (ind ++ '}' :: rest)))))
          = some (kv.2, '\n' :: (ind ++ '}' :: rest)) := by
        rw [dropWs_cons_ws (by decide), hvws kv (List.mem_cons_self kv []),
          hpv kv (List.mem_cons_self kv [])]
      have htail : dropWs ('\n' :: (ind ++ '}' :: rest)) = '}' :: rest := by
        rw [dropWs_cons_ws (by decide), dropWs_ws_run ind hind,
          dropWs_not_ws (by decide)]
      simp only [parseMoreEntries, hcs, renderMoreEntries, List.nil_append,
        parseJsonString_quote, dropWs_not_ws (by decide : jsonWs ':' = false), hval, htail]
  | cons kv2 l2 ih =>
    intro kv fuel cs rest hfuel hpv hvws hcs
    cases fuel with
    | zero => omega
    | succ f =>
      have hmem2 : ∀ p ∈ kv2 :: l2, p ∈ kv :: kv2 :: l2 :=
        fun p hp => List.mem_cons_of_mem kv hp
      have hval : pv (dropWs (' ' :: (rv kv.2 ++
            (renderMoreEntries (ind ++ [' ', ' ']) rv (kv2 :: l2)
              ++ '\n' :: (ind ++ '}' :: rest)))))
          = some (kv.2, renderMoreEntries (ind ++ [' ', ' ']) rv (kv2 :: l2)
              ++ '\n' :: (ind ++ '}' :: rest)) := by
        rw [dropWs_cons_ws (by decide), hvws kv (List.mem_cons_self kv _),
          hpv kv (List.mem_cons_self kv _)]
      have hcs4 : dropWs ('\n' :: (renderEntry (ind ++ [' ', ' ']) rv kv2
            ++ (renderMoreEntries (ind ++ [' ', ' ']) rv l2 ++ '\n' :: (ind ++ '}' :: rest))))
          = quoteJson kv2.1 ++ ':' :: ' ' ::
              (rv kv2.2 ++ (renderMoreEntries (ind ++ [' ', ' ']) rv l2
                ++ '\n' :: (ind ++ '}' :: rest))) := by
        rw [dropWs_cons_ws (by decide)]
        simp only [renderEntry, List.append_assoc, List.cons_append]
        rw [dropWs_ws_run ind hind, dropWs_cons_ws (by decide), dropWs_cons_ws (by decide)]
        simp only [List.nil_append]
        exact dropWs_quote kv2.1 _
      have hrec := ih kv2 f
        ('\n' :: (renderEntry (ind ++ [' ', ' ']) rv kv2
          ++ (renderMoreEntries (ind ++ [' ', ' ']) rv l2 ++ '\n' :: (ind ++ '}' :: rest))))
        rest (by simpa using Nat.lt_of_succ_lt_succ hfuel)
        (fun p hp => hpv p (hmem2 p hp)) (fun p hp => hvws p (hmem2 p hp)) hcs4
      simp only [parseMoreEntries, hcs, parseJsonString_quote,
        dropWs_not_ws (by decide : jsonWs ':' = false), hval]
      rw [show renderMoreEntries (ind ++ [' ', ' ']) rv (kv2 :: l2)
            ++ '\n' :: (ind ++ '}' :: rest)
          = ',' :: '\n' :: (renderEntry (ind ++ [' ', ' ']) rv kv2
              ++ (renderMoreEntries (ind ++ [' ', ' ']) rv l2
                ++ '\n' :: (ind ++ '}' :: rest))) from by
        simp [renderMoreEntries]]
      rw [dropWs_not_ws (by decide : jsonWs ',' = false)]
      simp only [hrec]
      rfl

/-- Parsing a rendered object returns exactly its members and the
following input. -/
theorem parseObj_round {α : Type} (pv : List Char → Option (α × List Char))
    (rv : α → List Char) (ind : List Char)
    (hind : ∀ c ∈ ind, jsonWs c = true) :
    ∀ (l : List (String × α)) (fuel : Nat) (rest : List Char),
      l.length < fuel →
      (∀ p ∈ l, ∀ r2 : List Char, pv (rv p.2 ++ r2) = some (p.2, r2)) →
      (∀ p ∈ l, ∀ r2 : List Char, dropWs (rv p.2 ++ r2) = rv p.2 ++ r2) →
      parseObj pv fuel (renderObj ind rv l ++ rest) = some (l, rest) := by
  have hind2 : ∀ c ∈ ind ++ [' ', ' '], jsonWs c = true := by
    intro c hc
    rcases List.mem_append.mp hc with h1 | h2
    · exact hind c h1
    · rcases List.mem_cons.mp h2 with h3 | h3
      · rw [h3]; rfl
      · rcases List.mem_singleton.mp h3 with rfl; rfl
  intro l fuel rest hfuel hpv hvws
  cases l with
  | nil =>
    simp only [renderObj, List.cons_append, List.nil_append, parseObj,
      dropWs_not_ws (by decide : jsonWs '}' = false)]
  | cons kv l2 =>
    have hdropN : dropWs ('\n' :: (renderEntry (ind ++ [' ', ' ']) rv kv
          ++ (renderMoreEntries (ind ++ [' ', ' ']) rv l2 ++ '\n' :: (ind ++ '}' :: rest))))
        = quoteJson kv.1 ++ ':' :: ' ' ::
            (rv kv.2 ++ (renderMoreEntries (ind ++ [' ', ' ']) rv l2
              ++ '\n' :: (ind ++ '}' :: rest))) := by
      rw [dropWs_cons_ws (by decide)]
      simp only [renderEntry, List.append_assoc, List.cons_append]
      rw [dropWs_ws_run ind hind, dropWs_cons_ws (by decide), dropWs_cons_ws (by decide)]
      simp only [List.nil_append]
      exact dropWs_quote kv.1 _
    have hrec2 : parseMoreEntries pv fuel
        (dropWs ('\n' :: (renderEntry (ind ++ [' ', ' ']) rv kv
          ++ (renderMoreEntries (ind ++ [' ', ' ']) rv l2 ++ '\n' :: (ind ++ '}' :: rest)))))
        = some (kv :: l2, rest) := by
      refine parseMore_round pv rv ind hind l2 kv fuel _ rest ?_ hpv hvws ?_
      · simp only [List.length_cons] at hfuel
        omega
      · rw [dropWs_idem]
        exact hdropN
    simp only [renderObj, List.cons_append, List.append_assoc, List.nil_append, parseObj]
    split
    · rename_i r2 heq
      rw [hdropN] at heq
      simp only [quoteJson, List.cons_append] at heq
      injection heq with hh
      exact absurd hh (by decide)
    · exact hrec2

/-- The member count a device-level value asks of the parser fuel. -/
def devValFields : DevVal → Nat
  | DevVal.str _ => 0
  | DevVal.obj fs => fs.length

/-- A rendered object never starts with whitespace. -/
theorem dropWs_renderObj {α : Type} (ind : List Char) (rv : α → List Char)
    (l : List (String × α)) (r2 : List Char) :
    dropWs (renderObj ind rv l ++ r2) = renderObj ind rv l ++ r2 := by
  cases l with
  | nil => exact dropWs_not_ws (by decide) _
  | cons kv rest => exact dropWs_not_ws (by decide) _

/-- A rendered device-level value never starts with whitespace. -/
theorem dropWs_renderDevVal (v : DevVal) (r2 : List Char) :
    dropWs (renderDevVal v ++ r2) = renderDevVal v ++ r2 := by
  cases v with
  | str s => exact dropWs_quote s r2
  | obj fs => exact dropWs_renderObj [' ', ' ', ' ', ' '] quoteJson fs r2

/-- The device-value codec round-trip. -/
theorem parseDevVal_round (fuel : Nat) (v : DevVal) (rest : List Char)
    (h : devValFields v < fuel) :
    parseDevVal fuel (renderDevVal v ++ rest) = some (v, rest) := by
  cases v with
  | str s =>
    rw [parseDevVal.eq_def]
    split
    · rename_i r heq
      rw [show renderDevVal (DevVal.str s) ++ rest
            = '"' :: (s.data.flatMap escapeJsonChar ++ ['"'] ++ rest) from by
          simp [renderDevVal, quoteJson]] at heq
      injection heq with hh
      exact absurd hh (by decide)
    · rw [show renderDevVal (DevVal.str s) = quoteJson s from rfl, parseJsonString_quote]
      rfl
  | obj fs =>
    obtain ⟨t, ht⟩ : ∃ t, renderObj [' ', ' ', ' ', ' '] quoteJson fs = '{' :: t := by
      cases fs with
      | nil => exact ⟨['}'], rfl⟩
      | cons kv rest2 => exact ⟨_, rfl⟩
    show parseDevVal fuel (renderObj [' ', ' ', ' ', ' '] quoteJson fs ++ rest) = _
    rw [ht, List.cons_append]
    show (parseObj parseJsonString fuel ('{' :: (t ++ rest))).map
        (fun p => (DevVal.obj p.1, p.2)) = _
    rw [← List.cons_append, ← ht]
    rw [parseObj_round parseJsonString quoteJson [' ', ' ', ' ', ' '] (by decide) fs fuel rest
      (by simpa [devValFields] using h)
      (fun p _ r2 => parseJsonString_quote p.2 r2)
      (fun p _ r2 => dropWs_quote p.2 r2)]
    rfl

/-- The device-object codec round-trip. -/
theorem parseDevice_round (fuel : Nat) (d : DeviceMap) (rest : List Char)
    (h1 : d.length < fuel) (h2 : ∀ p ∈ d, devValFields p.2 < fuel) :
    parseDevice fuel (renderDevice d ++ rest) = some (d, rest) :=
  parseObj_round (parseDevVal fuel) renderDevVal [' ', ' '] (by decide) d fuel rest h1
    (fun p hp r2 => parseDevVal_round fuel p.2 r2 (h2 p hp))
    (fun p _ r2 => dropWs_renderDevVal p.2 r2)

/-- The results-map codec round-trip at the character level, for any
sufficient fuel. -/
theorem parseResultsChars_round (fuel : Nat) (r : ResultsMap) (rest : List Char)
    (h1 : r.length < fuel) (h2 : ∀ p ∈ r, p.2.length < fuel)
    (h3 : ∀ p ∈ r, ∀ q ∈ p.2, devValFields q.2 < fuel) :
    parseResultsChars fuel (renderObj [] renderDevice r ++ rest) = some (r, rest) :=
  parseObj_round (parseDevice fuel) renderDevice [] (by simp) r fuel rest h1
    (fun p hp r2 => parseDevice_round fuel p.2 r2 (h2 p hp) (fun q hq => h3 p hp q hq))
    (fun p _ r2 => dropWs_renderObj [' ', ' '] renderDevVal p.2 r2)

/-- Rendering later members yields at least one character per member. -/
theorem length_le_renderMoreEntries {α : Type} (ind : List Char) (rv : α → List Char) :
    ∀ l : List (String × α), l.length ≤ (renderMoreEntries ind rv l).length := by
  intro l
  induction l with
  | nil => simp [renderMoreEntries]
  | cons kv rest ih =>
    simp only [renderMoreEntries, List.length_cons, List.length_append]
    omega

/-- Rendering an object yields at least one character per member. -/
theorem length_le_renderObj {α : Type} (ind : List Char) (rv : α → List Char)
    (l : List (String × α)) : l.length ≤ (renderObj ind rv l).length := by
  cases l with
  | nil => simp [renderObj]
  | cons kv rest =>
    have := length_le_renderMoreEntries (ind ++ [' ', ' ']) rv rest
    simp only [renderObj, List.length_cons, List.length_append]
    omega

/-- A member's rendered value is no longer than the rendered later
members containing it. -/
theorem length_rv_le_renderMoreEntries {α : Type} (ind : List Char) (rv : α → List Char) :
    ∀ (l : List (String × α)) (p : String × α), p ∈ l →
      (rv p.2).length ≤ (renderMoreEntries ind rv l).length := by
  intro l
  induction l with
  | nil => intro p hp; simp at hp
  | cons kv rest ih =>
    intro p hp
    rcases List.mem_cons.mp hp with h1 | h2
    · subst h1
      simp only [renderMoreEntries, renderEntry, List.length_cons, List.length_append]
      omega
    · have := ih p h2
      simp only [renderMoreEntries, List.length_cons, List.length_append]
      omega

/-- A member's rendered value is no longer than the rendered object
containing it. -/
theorem length_rv_le_renderObj {α : Type} (ind : List Char) (rv : α → List Char)
    (l : List (String × α)) (p : String × α) (hp : p ∈ l) :
    (rv p.2).length ≤ (renderObj ind rv l).length := by
  cases l with
  | nil => simp at hp
  | cons kv rest =>
    rcases List.mem_cons.mp hp with h1 | h2
    · subst h1
      simp only [renderObj, renderEntry, List.length_cons, List.length_append]
      omega
    · have := length_rv_le_renderMoreEntries (ind ++ [' ', ' ']) rv rest p h2
      simp only [renderObj, List.length_cons, List.length_append]
      omega

/-- C9: serializing a results map to the results-JSON text with indent 2
and parsing that text back yields a structurally identical results map:
parse after stringify is the identity. -/
theorem c9_results_json_round_trip (r : ResultsMap) :
    parseResults (stringifyResults r) = some r := by
  have hlen1 : r.length < (renderObj [] renderDevice r).length + 1 :=
    Nat.lt_succ_of_le (length_le_renderObj [] renderDevice r)
  have hlen2 : ∀ p ∈ r, p.2.length < (renderObj [] renderDevice r).length + 1 := by
    intro p hp
    refine Nat.lt_succ_of_le (le_trans ?_ (length_rv_le_renderObj [] renderDevice r p hp))
    exact length_le_renderObj [' ', ' '] renderDevVal p.2
  have hlen3 : ∀ p ∈ r, ∀ q ∈ p.2,
      devValFields q.2 < (renderObj [] renderDevice r).length + 1 := by
    intro p hp q hq
    refine Nat.lt_succ_of_le (le_trans ?_ (length_rv_le_renderObj [] renderDevice r p hp))
    refine le_trans ?_ (length_rv_le_renderObj [' ', ' '] renderDevVal p.2 q hq)
    cases hv : q.2 with
    | str s => simp [devValFields]
    | obj fs =>
      simp only [devValFields, renderDevVal]
      exact length_le_renderObj [' ', ' ', ' ', ' '] quoteJson fs
  have hmain := parseResultsChars_round ((renderObj [] renderDevice r).length + 1) r []
    hlen1 hlen2 hlen3
  rw [List.append_nil] at hmain
  have hdrop : dropWs (renderObj [] renderDevice r) = renderObj [] renderDevice r := by
    have := dropWs_renderObj [] renderDevice r []
    rwa [List.append_nil] at this
  show (match parseResultsChars ((renderObj [] renderDevice r).length + 1)
          (dropWs (renderObj [] renderDevice r)) with
        | some (r2, rest) => if dropWs rest = [] then some r2 else none
        | none => none) = some r
  rw [hdrop, hmain]
  rfl

/-! ## Lemmas on the lexicographic video selection -/

/-- lexLe is reflexive. -/
theorem lexLe_refl : ∀ a : List Char, lexLe a a = true := by
  intro a
  induction a with
  | nil => rfl
  | cons c cs ih => simp [lexLe, ih]

/-- lexLe is total: of any two character lists, one is below the other. -/
theorem lexLe_total : ∀ a b : List Char, lexLe a b = true ∨ lexLe b a = true := by
  intro a
  induction a with
  | nil => intro b; left; rfl
  | cons c cs ih =>
    intro b
    cases b with
    | nil => right; rfl
    | cons d ds =>
      by_cases hlt : c < d
      · left; simp [lexLe, hlt]
      · by_cases hgt : d < c
        · right; simp [lexLe, hgt]
        · rcases ih ds with h | h
          · left; simp [lexLe, hlt, hgt, h]
          · right; simp [lexLe, hlt, hgt, h]

/-- One unfolding of lexLe on two nonempty lists, as a disjunction. -/
theorem lexLe_cons_iff (x y : Char) (xs ys : List Char) :
    lexLe (x :: xs) (y :: ys) = true ↔ (x < y ∨ (x = y ∧ lexLe xs ys = true)) := by
  by_cases hlt : x < y
  · simp [lexLe, hlt]
  · by_cases hgt : y < x
    · have hne : x ≠ y := fun h => absurd (h ▸ hgt) (lt_irrefl x)
      simp [lexLe, hlt, hgt, hne]
    · have heq : x = y := le_antisymm (le_of_not_lt hgt) (le_of_not_lt hlt)
      simp [lexLe, hlt, hgt, heq]

/-- lexLe is transitive. -/
theorem lexLe_trans : ∀ a b c : List Char,
    lexLe a b = true → lexLe b c = true → lexLe a c = true := by
  intro a
  induction a with
  | nil => intro b c _ _; rfl
  | cons x xs ih =>
    intro b c hab hbc
    cases b with
    | nil => simp [lexLe] at hab
    | cons y ys =>
      cases c with
      | nil => simp [lexLe] at hbc
      | cons z zs =>
        rcases (lexLe_cons_iff x y xs ys).mp hab with h1 | ⟨h1, h1t⟩ <;>
          rcases (lexLe_cons_iff y z ys zs).mp hbc with h2 | ⟨h2, h2t⟩
        · exact (lexLe_cons_iff x z xs zs).mpr (Or.inl (lt_trans h1 h2))
        · exact (lexLe_cons_iff x z xs zs).mpr (Or.inl (h2 ▸ h1))
        · exact (lexLe_cons_iff x z xs zs).mpr (Or.inl (h1 ▸ h2))
        · exact (lexLe_cons_iff x z xs zs).mpr (Or.inr ⟨h1.trans h2, ih ys zs h1t h2t⟩)

/-- Membership in an insertion is membership in the parts. -/
theorem mem_insertSorted (s y : String) :
    ∀ l : List String, y ∈ insertSorted s l ↔ y = s ∨ y ∈ l := by
  intro l
  induction l with
  | nil => simp [insertSorted]
  | cons x xs ih =>
    cases h : lexLe s.data x.data with
    | true => simp [insertSorted, h]
    | false =>
      simp only [insertSorted, h, Bool.false_eq_true, if_false, List.mem_cons, ih]
      tauto

/-- Insertion keeps the list pairwise lexLe-ordered. -/
theorem pairwise_insertSorted (s : String) :
    ∀ l : List String, List.Pairwise (fun a b => lexLe a.data b.data = true) l →
      List.Pairwise (fun a b => lexLe a.data b.data = true) (insertSorted s l) := by
  intro l
  induction l with
  | nil => intro _; simp [insertSorted]
  | cons x xs ih =>
    intro hp
    rcases List.pairwise_cons.mp hp with ⟨hx, hxs⟩
    cases h : lexLe s.data x.data with
    | true =>
      rw [show insertSorted s (x :: xs) = s :: x :: xs from by simp [insertSorted, h]]
      refine List.pairwise_cons.mpr ⟨?_, hp⟩
      intro b hb
      rcases List.mem_cons.mp hb with h1 | h2
      · subst h1; exact h
      · exact lexLe_trans s.data x.data b.data h (hx b h2)
    | false =>
      rw [show insertSorted s (x :: xs) = x :: insertSorted s xs from by
        simp [insertSorted, h]]
      refine List.pairwise_cons.mpr ⟨?_, ih hxs⟩
      intro b hb
      rcases (mem_insertSorted s b xs).mp hb with h1 | h2
      · rw [h1]
        rcases lexLe_total s.data x.data with h3 | h3
        · rw [h] at h3
          exact absurd h3 (by simp)
        · exact h3
      · exact hx b h2

/-- Sorting produces a pairwise lexLe-ordered list. -/
theorem pairwise_sortStrings (l : List String) :
    List.Pairwise (fun a b => lexLe a.data b.data = true) (sortStrings l) := by
  induction l with
  | nil => simp [sortStrings]
  | cons x xs ih => exact pairwise_insertSorted x (sortStrings xs) ih

/-- Sorting neither adds nor removes elements. -/
theorem mem_sortStrings (y : String) :
    ∀ l : List String, y ∈ sortStrings l ↔ y ∈ l := by
  intro l
  induction l with
  | nil => simp [sortStrings]
  | cons x xs ih =>
    show y ∈ insertSorted x (sortStrings xs) ↔ _
    rw [mem_insertSorted x y (sortStrings xs), ih]
    simp

/-- In a pairwise lexLe-ordered list, the last element bounds every
element from above. -/
theorem pairwise_getLast_max :
    ∀ l : List String, List.Pairwise (fun a b => lexLe a.data b.data = true) l →
      ∀ m, l.getLast? = some m → ∀ x ∈ l, lexLe x.data m.data = true := by
  intro l
  induction l with
  | nil => intro _ m hm; simp at hm
  | cons a rest ih =>
    intro hp m hm x hx
    cases rest with
    | nil =>
      simp at hm
      rcases List.mem_singleton.mp hx with rfl
      rw [hm]
      exact lexLe_refl m.data
    | cons b rest2 =>
      have hm2 : (b :: rest2).getLast? = some m := hm
      rcases List.pairwise_cons.mp hp with ⟨ha, hp2⟩
      rcases List.mem_cons.mp hx with h1 | h2
      · have hmm : m ∈ b :: rest2 := List.mem_of_mem_getLast? hm2
        rw [h1]
        exact ha m hmm
      · exact ih hp2 m hm2 x h2

/-- C10: the per-device rename step selects the lexicographically
greatest webm filename in the shared directory — never by modification
time — and consequently, when a previously renamed video sorts after the
new device's generated video name, the rename hits the old file and the
new video keeps its generated name. -/
theorem c10_latest_video_lexicographic :
    (∀ (files : List String) (l : String), latestVideo files = some l →
        l ∈ files ∧ isWebm l = true
        ∧ ∀ x ∈ files, isWebm x = true → lexLe x.data l.data = true)
    ∧ latestVideo ["abc123.webm", "iphone-se-10-10-2026.webm"]
        = some "iphone-se-10-10-2026.webm"
    ∧ renameStep ["abc123.webm", "iphone-se-10-10-2026.webm"] "iphone-13-pro-10-10-2026.webm"
        = ["iphone-13-pro-10-10-2026.webm", "abc123.webm"] := by
  refine ⟨?_, by decide, by decide⟩
  intro files l hl
  have hmem : l ∈ sortStrings (files.filter isWebm) := List.mem_of_mem_getLast? hl
  have hfl : l ∈ files.filter isWebm := (mem_sortStrings l (files.filter isWebm)).mp hmem
  refine ⟨(List.mem_filter.mp hfl).1, (List.mem_filter.mp hfl).2, ?_⟩
  intro x hx hxw
  have hxs : x ∈ sortStrings (files.filter isWebm) :=
    (mem_sortStrings x (files.filter isWebm)).mpr (List.mem_filter.mpr ⟨hx, hxw⟩)
  exact pairwise_getLast_max (sortStrings (files.filter isWebm))
    (pairwise_sortStrings (files.filter isWebm)) l hl x hxs

/-- Witness for c10_latest_video_lexicographic: the directory after the
first device holds the first device's renamed video and the second
device's freshly generated one; the general selection theorem applied
there yields the old file as the lexicographic maximum. -/
theorem c10_latest_video_lexicographic_witness :
    "iphone-se-10-10-2026.webm" ∈ ["abc123.webm", "iphone-se-10-10-2026.webm"]
    ∧ isWebm "iphone-se-10-10-2026.webm" = true
    ∧ ∀ x ∈ ["abc123.webm", "iphone-se-10-10-2026.webm"], isWebm x = true →
        lexLe x.data "iphone-se-10-10-2026.webm".data = true :=
  c10_latest_video_lexicographic.1 ["abc123.webm", "iphone-se-10-10-2026.webm"]
    "iphone-se-10-10-2026.webm" (by decide)

/-- C3 (counterexample): the claim that every configured (device, step)
pair gets exactly one recorded outcome fails on the passport navigation
script: when the Benefits navigation element is not visible, the benefits
key is never written for that device, while it is written whenever the
element is visible. -/
theorem c3_missing_benefits_counterexample :
    "benefits" ∉
      (passportDeviceResults
        ⟨true, true, [⟨true, false, true, false⟩], false, [CandObs.visible],
          true, true, true, true, true, true⟩).map Prod.fst
    ∧ "benefits" ∈
      (passportDeviceResults
        ⟨true, true, [⟨true, false, true, false⟩], true, [CandObs.visible],
          true, true, true, true, true, true⟩).map Prod.fst := by
  decide

/-- C3 (amended): in the scenario-table sweeps, one device's scenario loop
records exactly one outcome per scenario of the table, in table order,
with the scenario names as keys and with no entry ever overwritten (the
overwrite flag stays false); the passport navigation script however
records its conditional step keys (such as benefits) only when the
guarding element is visible, so those keys can be absent. -/
theorem c3_scenario_outcomes_exactly_once (run : Scenario → Except String Outcome)
    (scs : List Scenario) (hnd : (scs.map Scenario.name).Nodup) :
    (runScenarios run scs).1 = scs.map (fun sc => (sc.name, scenarioEntry run sc))
    ∧ (runScenarios run scs).2 = false
    ∧ (runScenarios run scs).1.map Prod.fst = scs.map Scenario.name
    ∧ ∀ env : PassportEnv, env.benefitsNavVisible = false →
        "benefits" ∉ (passportDeviceResults env).map Prod.fst := by
  have h := runScenarios_fold_fresh run scs [] false (by simp) hnd
  have h1 : (runScenarios run scs).1 = scs.map (fun sc => (sc.name, scenarioEntry run sc)) := by
    simp [runScenarios, h]
  refine ⟨h1, by simp [runScenarios, h], ?_, ?_⟩
  · rw [h1]
    simp
  · intro env henv
    cases h2 : env.huntNavVisible && env.huntVisible <;>
      cases h3 : env.scanButtonVisible && env.backButtonScanFound <;>
        cases h4 : env.settingsVisible && env.signOutVisible <;>
          simp [passportDeviceResults, henv, h2, h3, h4]

/-- Witness for c3_scenario_outcomes_exactly_once at the concrete
testScenarios table with an always-passing step runner. -/
theorem c3_scenario_outcomes_exactly_once_witness :
    (runScenarios (fun _ => Except.ok ⟨"pass", "ok", none, none⟩) testScenariosMint).2 = false
    ∧ (runScenarios (fun _ => Except.ok ⟨"pass", "ok", none, none⟩) testScenariosMint).1.map
        Prod.fst
      = ["already-used-email", "bad-format-email", "invalid-eth", "invalid-ens",
         "valid-unique-email"] :=
  have h := c3_scenario_outcomes_exactly_once
    (fun _ => Except.ok ⟨"pass", "ok", none, none⟩) testScenariosMint (by decide)
  ⟨h.2.1, h.2.2.1⟩

/-- C5: when the step sequence of the scenario at position i throws, that
scenario's record carries status error with the exception message, every
scenario of the table still gets exactly one record (the loop body runs
once per scenario and continues past the failure), and the records of all
other scenarios are exactly what their own runs produce. -/
theorem c5_scenario_exception_isolated (run : Scenario → Except String Outcome)
    (scs : List Scenario) (i : Nat) (sc : Scenario) (msg : String)
    (hnd : (scs.map Scenario.name).Nodup)
    (hi : scs[i]? = some sc) (hthrow : run sc = Except.error msg) :
    (runScenarios run scs).1[i]? = some (sc.name, ⟨"error", msg, none, none⟩)
    ∧ (runScenarios run scs).1.length = scs.length
    ∧ ∀ j, j ≠ i → (runScenarios run scs).1[j]?
        = (scs[j]?).map (fun s => (s.name, scenarioEntry run s)) := by
  have h1 := (c3_scenario_outcomes_exactly_once run scs hnd).1
  refine ⟨?_, by rw [h1]; simp, ?_⟩
  · rw [h1, List.getElem?_map, hi]
    simp [scenarioEntry, hthrow]
  · intro j _
    rw [h1, List.getElem?_map]

/-- Witness for c5_scenario_exception_isolated: the invalid-eth scenario
throws while the others pass; its record is the error record, and the
table still yields five records. -/
theorem c5_scenario_exception_isolated_witness :
    (runScenarios
        (fun sc => if sc.name = "invalid-eth" then Except.error "boom"
          else Except.ok ⟨"pass", "ok", none, none⟩)
        testScenariosMint).1[2]?
      = some ("invalid-eth", ⟨"error", "boom", none, none⟩)
    ∧ (runScenarios
        (fun sc => if sc.name = "invalid-eth" then Except.error "boom"
          else Except.ok ⟨"pass", "ok", none, none⟩)
        testScenariosMint).1.length = 5 :=
  have h := c5_scenario_exception_isolated
    (fun sc => if sc.name = "invalid-eth" then Except.error "boom"
      else Except.ok ⟨"pass", "ok", none, none⟩)
    testScenariosMint 2 ⟨"invalid-eth", some "0xfmifeo", true⟩ "boom"
    (by decide) (by decide) (by simp)
  ⟨h.1, h.2.1⟩

/-- C6: a device whose profile is missing from the Playwright registry
gets exactly the device-not-found message recorded under its error key
with no scenario records, and every other device's entry in the results
map is exactly what that device's own sweep produces. -/
theorem c6_device_failure_isolated (registry : String → Option Unit)
    (run : String → Scenario → Except String Outcome) (scs : List Scenario)
    (ds : List String) (d : String) (hnd : ds.Nodup) (hmem : d ∈ ds)
    (hmiss : registry d = none) :
    List.lookup d (runDevices registry run scs ds) = some ⟨[], some (deviceNotFoundMsg d)⟩
    ∧ ∀ d2 ∈ ds, d2 ≠ d →
        List.lookup d2 (runDevices registry run scs ds)
          = some (deviceSweep registry run scs d2) := by
  have h : runDevices registry run scs ds
      = ds.map (fun x => (x, deviceSweep registry run scs x)) := by
    have := runDevices_fold_fresh registry run scs ds [] (by simp) hnd
    simpa [runDevices] using this
  constructor
  · rw [h, lookup_map_assoc _ ds d hmem hnd]
    simp [deviceSweep, hmiss]
  · intro d2 hd2 _
    rw [h, lookup_map_assoc _ ds d2 hd2 hnd]

/-- Witness for c6_device_failure_isolated: the part_001 device list with
the Galaxy S21 Ultra missing from the registry; the other devices, here
Pixel 5, keep their own sweep results. -/
theorem c6_device_failure_isolated_witness :
    List.lookup "Galaxy S21 Ultra"
      (runDevices (fun x => if x = "Galaxy S21 Ultra" then none else some ())
        (fun _ _ => Except.ok ⟨"pass", "ok", none, none⟩) testScenariosMint devicesToTestMint)
      = some ⟨[], some (deviceNotFoundMsg "Galaxy S21 Ultra")⟩
    ∧ List.lookup "Pixel 5"
      (runDevices (fun x => if x = "Galaxy S21 Ultra" then none else some ())
        (fun _ _ => Except.ok ⟨"pass", "ok", none, none⟩) testScenariosMint devicesToTestMint)
      = some (deviceSweep (fun x => if x = "Galaxy S21 Ultra" then none else some ())
          (fun _ _ => Except.ok ⟨"pass", "ok", none, none⟩) testScenariosMint "Pixel 5") :=
  have h := c6_device_failure_isolated
    (fun x => if x = "Galaxy S21 Ultra" then none else some ())
    (fun _ _ => Except.ok ⟨"pass", "ok", none, none⟩) testScenariosMint devicesToTestMint
    "Galaxy S21 Ultra" (by decide) (by decide) (by simp)
  ⟨h.1, h.2 "Pixel 5" (by decide) (by decide)⟩

/-- C8 (counterexample): in the passport suites the renamed video is not
named device-dash-date dot webm: the name carries a passport- prefix. -/
theorem c8_passport_prefix_counterexample :
    newVideoNamePassport "iPhone SE" (getFormattedDate 11 10 2026)
      = "passport-iphone-se-11-10-2026.webm"
    ∧ newVideoNamePassport "iPhone SE" (getFormattedDate 11 10 2026)
      ≠ deviceToFilename "iPhone SE" ++ "-" ++ getFormattedDate 11 10 2026 ++ ".webm" := by
  decide

/-- C8 (amended): after each device's context closes the recorded video is
renamed to device-dash-date dot webm in the mint-form suites, and to the
same name with a passport- prefix in the passport suites; the device part
is the filename-normalized device name and the date part is DD-MM-YYYY. -/
theorem c8_video_rename_format :
    devicesToTestMint.map (fun d => newVideoNameMint d (getFormattedDate 11 10 2026))
      = ["iphone-se-11-10-2026.webm", "iphone-13-pro-11-10-2026.webm",
         "iphone-14-pro-max-11-10-2026.webm", "pixel-5-11-10-2026.webm",
         "galaxy-s9-plus-11-10-2026.webm", "galaxy-s21-ultra-11-10-2026.webm"]
    ∧ devicesToTestPassport.map (fun d => newVideoNamePassport d (getFormattedDate 11 10 2026))
      = ["passport-iphone-se-11-10-2026.webm", "passport-iphone-13-pro-11-10-2026.webm",
         "passport-iphone-14-pro-max-11-10-2026.webm", "passport-pixel-5-11-10-2026.webm",
         "passport-galaxy-s9-plus-11-10-2026.webm", "passport-galaxy-s24-11-10-2026.webm"]
    ∧ getFormattedDate 1 2 2026 = "01-02-2026" := by
  decide
